import Mathlib

/-!
Verification of the crypto-api-fast-api repository: a FastAPI proxy over the
CoinGecko market-data provider.  The development shallowly embeds the
pagination utilities (`src/utils/pagination.py`), the upstream gateway
(`src/services/coingecko_service.py`), the category model
(`src/models/coin.py`) and the coin-list endpoint of `src/main.py`.

Python `int` is embedded as `Int`, JSON payloads as the inductive `JValue`,
`fastapi.HTTPException` as a status/detail record, and fallible Python code
(exceptions) as `Except`.
-/

namespace CryptoApi

/-- A JSON value as `response.json()` may return it.  Numbers are embedded as
rationals (the claims treat numeric payload fields as opaque values). -/
inductive JValue where
  | null : JValue
  | bool (b : Bool) : JValue
  | num (q : Rat) : JValue
  | str (s : String) : JValue
  | arr (elems : List JValue) : JValue
  | obj (fields : List (String × JValue)) : JValue

namespace JValue

/-- Python `isinstance(v, dict)`. -/
def isObj : JValue → Bool
  | .obj _ => true
  | _ => false

/-- Python `isinstance(v, list)`. -/
def isArr : JValue → Bool
  | .arr _ => true
  | _ => false

/-- Python truthiness test `bool(v)` on a JSON value: `None`, `False`, `0`,
`""`, `[]` and `{}` are falsy (`if not data: ...`). -/
def falsy : JValue → Bool
  | .null => true
  | .bool b => !b
  | .num q => q == 0
  | .str s => s.isEmpty
  | .arr xs => xs.isEmpty
  | .obj fs => fs.isEmpty

/-- Raw field lookup on an object: `some` value of the first field named `k`,
`none` if `v` is not an object or has no such field. -/
def find (v : JValue) (k : String) : Option JValue :=
  match v with
  | .obj fields =>
      match fields.find? (fun p => p.1 == k) with
      | some p => some p.2
      | none => none
  | _ => none

/-- Python `v.get(k, d)`: the field value or the default `d`; raises
(`Except.error`) when `v` is not a dict (`AttributeError`). -/
def getD (v : JValue) (k : String) (d : JValue) : Except Unit JValue :=
  match v with
  | .obj _ => .ok ((v.find k).getD d)
  | _ => .error ()

/-- Python `v.get(k)` (default `None`). -/
def get1 (v : JValue) (k : String) : Except Unit JValue :=
  v.getD k .null

end JValue

/-- Normalize one bound of a Python slice `xs[a:b]` for a list of length
`len`: negative indices count from the end, and both ends clamp to
`[0, len]`. -/
def sliceBound (len : Nat) (i : Int) : Nat :=
  if i < 0 then ((len : Int) + i).toNat else min i.toNat len

/-- Python list slice `xs[a:b]`. -/
def pySlice (xs : List α) (a b : Int) : List α :=
  (xs.take (sliceBound xs.length b)).drop (sliceBound xs.length a)

/-- Python slice `xs[:b]` (`a = 0`). -/
def pySliceTo (xs : List α) (b : Int) : List α :=
  pySlice xs 0 b

/-!  ## `src/utils/pagination.py`  -/

/-- Embedding of `validate_pagination_params(page, per_page, max_per_page=100)`:
`page = max(page, 1)`; `if per_page < 1: per_page = 10`;
`per_page = min(per_page, max_per_page)`. -/
def validate_pagination_params (page per_page : Int) (max_per_page : Int := 100) :
    Int × Int :=
  let page := max page 1
  let per_page := if per_page < 1 then 10 else per_page
  let per_page := min per_page max_per_page
  (page, per_page)

/-- The dictionary returned by `paginate_response`. -/
structure PageResponse (α : Type) where
  page : Int
  per_page : Int
  total : Int
  items : List α
deriving DecidableEq, Repr

/-- Embedding of `paginate_response(items, page, per_page)`: `total_items = len(items)`;
`start_idx = (page - 1) * per_page`; `end_idx = start_idx + per_page`;
`paginated_items = items[start_idx:end_idx] if start_idx < total_items
else []`. -/
def paginate_response (items : List α) (page per_page : Int) : PageResponse α :=
  let total_items : Int := items.length
  let start_idx := (page - 1) * per_page
  let end_idx := start_idx + per_page
  let paginated_items :=
    if start_idx < total_items then pySlice items start_idx end_idx else []
  { page := page, per_page := per_page, total := total_items,
    items := paginated_items }

/-!  ## `src/services/coingecko_service.py`  -/

/-- Service configuration (`CoinGeckoService.__init__`); only the default
currency is observable in the reshaping logic (`base_url`, `api_key` and the
header only affect the raw HTTP call). -/
structure Config where
  default_currency : String

/-- One HTTP request issued to the provider: endpoint path plus the `params`
dictionary. -/
structure Request where
  endpoint : String
  params : List (String × JValue)

/-- The outcome of one raw `requests.get` call: a JSON body, an HTTP error
status (`raise_for_status`), or a network/transport failure
(`requests.RequestException`). -/
inductive Upstream where
  | ok (body : JValue) : Upstream
  | httpError (status : Nat) : Upstream
  | netError (msg : String) : Upstream

/-- Model of `fastapi.HTTPException`, reduced to its status code and detail
message. -/
structure HTTPException where
  status_code : Nat
  detail : String
deriving DecidableEq, Repr

/-- Abstraction of Python `str(e)` for a `requests.exceptions.HTTPError`
(library-rendered text, carried through verbatim by the service). -/
def strOfHTTPError (status : Nat) : String :=
  "HTTP error: status " ++ toString status

/-- Embedding of `CoinGeckoService._make_request`: returns the JSON body on success; maps
an upstream 429 to a local 429 "Rate limit exceeded…" error, any other
upstream HTTP error to a local error with the same status, and a transport
failure to a 503 error. -/
def make_request (up : Upstream) : Except HTTPException JValue :=
  match up with
  | .ok body => .ok body
  | .httpError status =>
      if status == 429 then
        .error ⟨429, "Rate limit exceeded. Please try again later."⟩
      else
        .error ⟨status, strOfHTTPError status⟩
  | .netError msg =>
      .error ⟨503, "Error fetching data from CoinGecko: " ++ msg⟩

/-- The reduced coin record built by `get_coins_list` /
`get_coins_by_category` (a plain Python dict in the source). -/
structure Coin where
  id : JValue
  symbol : JValue
  name : JValue
  current_price : JValue
  market_cap : JValue
  market_cap_rank : JValue
  price_change_24h : JValue
  price_change_percentage_24h : JValue

/-- The per-coin reshaping of the `coins/markets` list comprehension:
`coin.get(...)` for each field; raises (`AttributeError` → `Except.error`)
when the entry is not a dict. -/
def reshapeCoin (coin : JValue) : Except Unit Coin := do
  let id0 ← coin.get1 "id"
  let symbol0 ← coin.get1 "symbol"
  let name0 ← coin.get1 "name"
  let current_price ← coin.get1 "current_price"
  let market_cap ← coin.get1 "market_cap"
  let market_cap_rank ← coin.get1 "market_cap_rank"
  let price_change_24h ← coin.get1 "price_change_24h"
  let price_change_percentage_24h ← coin.get1 "price_change_percentage_24h"
  return ⟨id0, symbol0, name0, current_price, market_cap, market_cap_rank,
    price_change_24h, price_change_percentage_24h⟩

/-- The `coins/markets` list comprehension: reshape every element in order,
aborting at the first failure (the comprehension raises there). -/
def reshapeAll : List JValue → Except Unit (List Coin)
  | [] => .ok []
  | c :: rest => do
      let r ← reshapeCoin c
      let rs ← reshapeAll rest
      return r :: rs

/-- Python slicing `data[:per_page]` on a JSON value: lists and strings are
sliceable (a string slices to a string, here represented by its characters,
which the subsequent comprehension iterates); anything else raises
`TypeError`. -/
def pySliceVal (v : JValue) (n : Int) : Except Unit (List JValue) :=
  match v with
  | .arr xs => .ok (pySliceTo xs n)
  | .str s => .ok (pySliceTo (s.toList.map fun c => JValue.str (String.singleton c)) n)
  | _ => .error ()

/-- Python iteration `for x in v` over a JSON value: a list yields its
elements, a string its characters, a dict its keys; anything else raises
`TypeError`. -/
def pyIter (v : JValue) : Except Unit (List JValue) :=
  match v with
  | .arr xs => .ok xs
  | .str s => .ok (s.toList.map fun c => JValue.str (String.singleton c))
  | .obj fs => .ok (fs.map fun p => JValue.str p.1)
  | _ => .error ()

/-- The `params` dict built by `get_coins_list`: note `per_page + 1` items
are requested. -/
def coins_list_params (cfg : Config) (page per_page : Int) :
    List (String × JValue) :=
  [("vs_currency", .str cfg.default_currency),
   ("order", .str "market_cap_desc"),
   ("per_page", .num ((per_page + 1 : Int) : Rat)),
   ("page", .num ((page : Int) : Rat)),
   ("sparkline", .bool false)]

/-- The request issued by `get_coins_list`. -/
def coins_list_request (cfg : Config) (page per_page : Int) : Request :=
  ⟨"coins/markets", coins_list_params cfg page per_page⟩

/-- Embedding of `CoinGeckoService.get_coins_list`: requests `coins/markets` with
`per_page + 1`, returns `[]` on a falsy body, truncates to `per_page`
(`data = data[:per_page]`) and reshapes each entry; an `HTTPException` from
`_make_request` is re-raised unchanged, any other exception becomes a 500
"Internal server error". -/
def get_coins_list (cfg : Config) (page per_page : Int)
    (oracle : Request → Upstream) :
    Except HTTPException (List Coin) × List Request :=
  let req := coins_list_request cfg page per_page
  match make_request (oracle req) with
  | .error e => (.error e, [req])
  | .ok data =>
      if data.falsy then (.ok [], [req])
      else
        match pySliceVal data per_page >>= reshapeAll with
        | .ok coins => (.ok coins, [req])
        | .error _ =>
            (.error ⟨500, "Internal server error: reshaping failed"⟩, [req])

/-- Pydantic validation of a `str`-typed field: a string validates to
itself; any other JSON value raises `ValidationError` (pydantic v2, which
FastAPI installs; pydantic v1 would additionally coerce numbers, but both
versions accept strings unchanged and reject `None`). -/
def pydanticStr (v : JValue) : Except Unit String :=
  match v with
  | .str s => .ok s
  | _ => .error ()

/-- Model of the `Category` class of `src/models/coin.py`: both fields are
declared `str`, so a constructed `Category` holds genuine strings. -/
structure Category where
  id : String
  name : String
deriving DecidableEq, Repr

/-- Embedding of `Category.from_coingecko`:
`cls(id=data.get("category_id", ""), name=data.get("name", ""))`.  The
pydantic constructor validates each supplied value against its `str`
annotation and raises `ValidationError` on a non-string.  Only invoked on
dict entries. -/
def Category.from_coingecko (d : JValue) : Except Unit Category := do
  let i ← pydanticStr ((d.find "category_id").getD (.str ""))
  let n ← pydanticStr ((d.find "name").getD (.str ""))
  return ⟨i, n⟩

/-- The `for category in data: if isinstance(category, dict):
categories.append(Category.from_coingecko(category))` loop of
`get_coin_categories`: appends in order, aborting at the first dict entry
whose validation raises. -/
def categoriesLoop (acc : List Category) :
    List JValue → Except Unit (List Category)
  | [] => .ok acc
  | c :: rest =>
      if c.isObj then
        match Category.from_coingecko c with
        | .ok cat => categoriesLoop (acc ++ [cat]) rest
        | .error e => .error e
      else categoriesLoop acc rest

/-- Embedding of `CoinGeckoService.get_coin_categories`: requests
`coins/categories/list`; a non-list body yields `[]`; list entries that are
not dicts are skipped; a `ValidationError` raised while building a
`Category` is caught by the broad `except Exception` and becomes a 500
"Internal server error". -/
def get_coin_categories (up : Upstream) : Except HTTPException (List Category) :=
  match make_request up with
  | .error e => .error e
  | .ok data =>
      match data with
      | .arr items =>
          match categoriesLoop [] items with
          | .ok cats => .ok cats
          | .error _ =>
              .error ⟨500, "Internal server error: validation failed"⟩
      | _ => .ok []

/-- The flattened coin-detail record built by `get_coin_by_id`. -/
structure CoinDetail where
  id : JValue
  symbol : JValue
  name : JValue
  current_price : JValue
  market_cap : JValue
  market_cap_rank : JValue
  price_change_24h : JValue
  price_change_percentage_24h : JValue
  description : JValue
  categories : JValue
  links_homepage : JValue
  links_blockchain_site : JValue
  links_official_forum_url : JValue

/-- The dict-literal reshaping inside `get_coin_by_id`, field by field in
source order; any `.get` on a non-dict raises (→ `Except.error`). -/
def reshapeCoinDetail (cfg : Config) (data : JValue) :
    Except Unit CoinDetail := do
  let id0 ← data.get1 "id"
  let symbol0 ← data.get1 "symbol"
  let name0 ← data.get1 "name"
  let current_price ← do
    let md ← data.getD "market_data" (.obj [])
    let cp ← md.getD "current_price" (.obj [])
    cp.get1 cfg.default_currency
  let market_cap ← do
    let md ← data.getD "market_data" (.obj [])
    let mc ← md.getD "market_cap" (.obj [])
    mc.get1 cfg.default_currency
  let market_cap_rank ← data.get1 "market_cap_rank"
  let price_change_24h ← do
    let md ← data.getD "market_data" (.obj [])
    md.get1 "price_change_24h"
  let price_change_percentage_24h ← do
    let md ← data.getD "market_data" (.obj [])
    md.get1 "price_change_percentage_24h"
  let description ← data.get1 "description"
  let categories0 ← data.get1 "categories"
  let links_homepage ← do
    let l ← data.getD "links" (.obj [])
    l.getD "homepage" (.arr [])
  let links_blockchain_site ← do
    let l ← data.getD "links" (.obj [])
    l.getD "blockchain_site" (.arr [])
  let links_official_forum_url ← do
    let l ← data.getD "links" (.obj [])
    l.getD "official_forum_url" (.arr [])
  return ⟨id0, symbol0, name0, current_price, market_cap, market_cap_rank,
    price_change_24h, price_change_percentage_24h, description, categories0,
    links_homepage, links_blockchain_site, links_official_forum_url⟩

/-- Embedding of `CoinGeckoService.get_coin_by_id`: one request to `coins/{coin_id}`; an
`HTTPException` from `_make_request` is re-raised unchanged
(`except HTTPException as e: raise e`); any other failure (reshaping) is
collapsed to `404 "Coin not found: {coin_id}"`. -/
def get_coin_by_id (cfg : Config) (coin_id : String) (up : Upstream) :
    Except HTTPException CoinDetail :=
  match make_request up with
  | .error e => .error e
  | .ok data =>
      match reshapeCoinDetail cfg data with
      | .ok d => .ok d
      | .error _ => .error ⟨404, "Coin not found: " ++ coin_id⟩

/-- The `{category, coins}` dict returned by `get_coins_by_category`. -/
structure CategoryCoins where
  category : JValue
  coins : List Coin

/-- The category-metadata request of `get_coins_by_category`
(`params=None`). -/
def category_meta_request (category_id : String) : Request :=
  ⟨"coins/categories/" ++ category_id, []⟩

/-- The `coins/markets` params of `get_coins_by_category`: the caller's
`per_page` is passed straight through (no `+ 1`). -/
def category_markets_params (cfg : Config) (category_id : String)
    (page per_page : Int) : List (String × JValue) :=
  [("vs_currency", .str cfg.default_currency),
   ("category", .str category_id),
   ("order", .str "market_cap_desc"),
   ("per_page", .num ((per_page : Int) : Rat)),
   ("page", .num ((page : Int) : Rat)),
   ("sparkline", .bool false)]

/-- The coin-market request of `get_coins_by_category`. -/
def category_markets_request (cfg : Config) (category_id : String)
    (page per_page : Int) : Request :=
  ⟨"coins/markets", category_markets_params cfg category_id page per_page⟩

/-- Embedding of `CoinGeckoService.get_coins_by_category`, with the sequence of issued
requests made explicit (second component).  A falsy category payload
returns `{category: category_id, coins: []}` before the market request is
ever issued; an `HTTPException` is re-raised unchanged; any other failure
becomes a 500 "Error fetching category coins" error. -/
def get_coins_by_category (cfg : Config) (category_id : String)
    (page per_page : Int) (oracle : Request → Upstream) :
    Except HTTPException CategoryCoins × List Request :=
  let req1 := category_meta_request category_id
  match make_request (oracle req1) with
  | .error e => (.error e, [req1])
  | .ok category_data =>
      if category_data.falsy then
        (.ok ⟨.str category_id, []⟩, [req1])
      else
        let req2 := category_markets_request cfg category_id page per_page
        match make_request (oracle req2) with
        | .error e => (.error e, [req1, req2])
        | .ok coins_data =>
            match pyIter coins_data >>= reshapeAll with
            | .error _ =>
                (.error ⟨500, "Error fetching category coins: reshaping failed"⟩,
                  [req1, req2])
            | .ok category_coins =>
                match category_data.getD "name" (.str category_id) with
                | .error _ =>
                    (.error ⟨500, "Error fetching category coins: name lookup failed"⟩,
                      [req1, req2])
                | .ok nm => (.ok ⟨nm, category_coins⟩, [req1, req2])

/-!  ## `src/main.py`: the `/api/v1/coins` endpoint  -/

/-- The `list_coins` endpoint: normalizes `(page, per_page)` with
`MAX_PER_PAGE = 100`, fetches the coin list, and synthesizes
`total = page*per_page + per_page` when the page is non-empty and
`page*per_page` when it is empty. -/
def list_coins (cfg : Config) (page per_page : Int)
    (oracle : Request → Upstream) :
    Except HTTPException (PageResponse Coin) :=
  let p := validate_pagination_params page per_page 100
  match (get_coins_list cfg p.1 p.2 oracle).1 with
  | .error e => .error e
  | .ok coins =>
      let total : Int :=
        if !coins.isEmpty then p.1 * p.2 + p.2 else p.1 * p.2
      .ok { page := p.1, per_page := p.2, total := total, items := coins }

/-- Test `startsWithChars p s`: `p` occurs at the head of `s`. -/
def startsWithChars : List Char → List Char → Bool
  | [], _ => true
  | _ :: _, [] => false
  | p :: ps, c :: cs => p == c && startsWithChars ps cs

/-- Test `charsHaveSub pat s`: `pat` occurs contiguously somewhere in `s`. -/
def charsHaveSub (pat : List Char) : List Char → Bool
  | [] => pat.isEmpty
  | c :: rest => startsWithChars pat (c :: rest) || charsHaveSub pat rest

/-- Case-insensitive substring test, used to state "the message contains
the phrase `pat`". -/
def containsSubstringCI (s pat : String) : Bool :=
  charsHaveSub (pat.toList.map Char.toLower) (s.toList.map Char.toLower)

/-- A provider that always reports HTTP 429. -/
def oracle429 : Request → Upstream := fun _ =>
  .httpError 429

/-- A provider whose `coins/markets` endpoint is unreachable while the
category-metadata endpoint answers normally. -/
def oracleMarketsDown : Request → Upstream := fun r =>
  if r.endpoint == "coins/markets" then .netError "down"
  else .ok (.obj [("name", .str "DeFi")])

/-- A concrete `coins/{id}` payload with nested market data and no
`links` key (the test suite's bitcoin mock, minus the links). -/
def coinPayloadEx : JValue :=
  .obj [("id", .str "bitcoin"), ("symbol", .str "btc"),
        ("name", .str "Bitcoin"),
        ("market_data", .obj
          [("current_price", .obj [("cad", .num 50000)]),
           ("market_cap", .obj [("cad", .num 1000000000)])])]

/-- The flattened detail record `get_coin_by_id` builds from
`coinPayloadEx`. -/
def coinDetailEx : CoinDetail :=
  ⟨.str "bitcoin", .str "btc", .str "Bitcoin", .num 50000, .num 1000000000,
   .null, .null, .null, .null, .null, .arr [], .arr [], .arr []⟩

/-- A concrete configuration, as the test suite uses (`DEFAULT_CURRENCY =
"cad"`). -/
def cfgEx : Config :=
  ⟨"cad"⟩

/-- The reshaping of an empty dict entry: every field is `None`. -/
def nullCoin : Coin :=
  ⟨.null, .null, .null, .null, .null, .null, .null, .null⟩

/-- A concrete provider behavior: the category-metadata call returns
`{"name": "DeFi"}` and the `coins/markets` call returns two coin dicts. -/
def oracleTwoCoins : Request → Upstream := fun r =>
  if r.endpoint == "coins/markets" then .ok (.arr [.obj [], .obj []])
  else .ok (.obj [("name", .str "DeFi")])

end CryptoApi

namespace CryptoApi

/-!  ## General helper lemmas about the embedding  -/

theorem exceptBind_ok (a : α) (f : α → Except ε β) :
    (Except.ok a >>= f) = f a :=
  rfl

theorem exceptBind_error (e : ε) (f : α → Except ε β) :
    ((Except.error e : Except ε α) >>= f) = Except.error e :=
  rfl

/-- Reshaping a dict entry always succeeds. -/
theorem reshapeCoin_obj (fs : List (String × JValue)) :
    ∃ r, reshapeCoin (.obj fs) = .ok r :=
  ⟨_, rfl⟩

/-- The comprehension succeeds on a list of dicts and is length
preserving. -/
theorem reshapeAll_ok_of_obj (l : List JValue)
    (h : ∀ c ∈ l, c.isObj = true) :
    ∃ cs, reshapeAll l = .ok cs ∧ cs.length = l.length := by
  induction l with
  | nil => exact ⟨[], rfl, rfl⟩
  | cons c rest ih =>
    have hc : c.isObj = true := h c (List.mem_cons_self c rest)
    obtain ⟨fs, rfl⟩ : ∃ fs, c = JValue.obj fs := by
      cases c <;> simp [JValue.isObj] at hc ⊢
    obtain ⟨r, hr⟩ := reshapeCoin_obj fs
    obtain ⟨cs, hcs, hlen⟩ := ih fun x hx => h x (List.mem_cons_of_mem _ hx)
    refine ⟨r :: cs, ?_, by simp [hlen]⟩
    simp only [reshapeAll]
    rw [hr, exceptBind_ok, hcs, exceptBind_ok]
    rfl

/-- Whenever the comprehension succeeds it is length preserving. -/
theorem reshapeAll_length : ∀ {l : List JValue} {cs : List Coin},
    reshapeAll l = .ok cs → cs.length = l.length := by
  intro l
  induction l with
  | nil =>
    intro cs h
    simp only [reshapeAll] at h
    injection h with h
    subst h
    rfl
  | cons c rest ih =>
    intro cs h
    simp only [reshapeAll] at h
    cases hr : reshapeCoin c with
    | error e =>
      rw [hr, exceptBind_error] at h
      exact absurd h (by simp)
    | ok r =>
      rw [hr, exceptBind_ok] at h
      cases hrs : reshapeAll rest with
      | error e =>
        rw [hrs, exceptBind_error] at h
        exact absurd h (by simp)
      | ok rs =>
        rw [hrs, exceptBind_ok] at h
        have h' : r :: rs = cs := by
          simpa [pure, Except.pure] using h
        rw [← h']
        simp [ih hrs]

/-- Inversion: `_make_request` returns a body only when the raw call succeeded with
that body. -/
theorem make_request_ok {up : Upstream} {body : JValue}
    (h : make_request up = .ok body) : up = .ok body := by
  cases up with
  | ok b =>
    simp only [make_request] at h
    injection h with h
    rw [h]
  | httpError s =>
    simp only [make_request] at h
    split at h <;> exact absurd h (by simp)
  | netError m => exact absurd h (by simp [make_request])

/-- Reshaping a non-dict entry raises. -/
theorem reshapeCoin_not_obj {x : JValue} (hx : x.isObj = false) :
    reshapeCoin x = .error () := by
  cases x <;> first
    | rfl
    | simp [JValue.isObj] at hx

/-- The comprehension fails on any non-empty list of non-dict entries. -/
theorem reshapeAll_ok_of_no_obj {l : List JValue} {cs : List Coin}
    (hno : ∀ y ∈ l, y.isObj = false) (h : reshapeAll l = .ok cs) :
    cs = [] := by
  cases l with
  | nil =>
    injection h with h
    exact h.symm
  | cons x xl =>
    have hx := reshapeCoin_not_obj (hno x (List.mem_cons_self x xl))
    simp only [reshapeAll] at h
    rw [hx, exceptBind_error] at h
    exact absurd h (by simp)

/-- Inversion of a successful `Except` bind. -/
theorem exceptBind_eq_ok {e : Except ε α} {f : α → Except ε β} {b : β}
    (h : (e >>= f) = .ok b) : ∃ a, e = .ok a ∧ f a = .ok b := by
  cases e with
  | error er =>
    rw [exceptBind_error] at h
    exact absurd h (by simp)
  | ok a => exact ⟨a, rfl, by rwa [exceptBind_ok] at h⟩

/-- Inversion of a successful Python `v.get(k, d)`. -/
theorem getD_ok_inv {v : JValue} {k : String} {dv x : JValue}
    (h : JValue.getD v k dv = .ok x) : x = (v.find k).getD dv := by
  cases v with
  | obj fs =>
    simp only [JValue.getD] at h
    injection h with h
    exact h.symm
  | null => exact absurd h (by simp [JValue.getD])
  | bool b => exact absurd h (by simp [JValue.getD])
  | num q => exact absurd h (by simp [JValue.getD])
  | str s => exact absurd h (by simp [JValue.getD])
  | arr xs => exact absurd h (by simp [JValue.getD])

/-- Slicing: `xs[:n]` for `0 ≤ n` is `take`. -/
theorem pySliceTo_eq_take (xs : List α) (n : Int) (hn : 0 ≤ n) :
    pySliceTo xs n = xs.take n.toNat := by
  unfold pySliceTo pySlice sliceBound
  have h1 : ¬ (n < 0) := by omega
  have h0 : ¬ ((0 : Int) < 0) := by decide
  simp only [h1, h0, if_false, Int.toNat_zero, Nat.zero_min, List.drop_zero]
  rw [List.take_eq_take]
  omega

/-!  ## Claim C1: the pagination normalizer  -/

/-- C1.  `validate_pagination_params` with `max_per_page = 100` returns
`(max(page, 1), p)` with `p = 10` when `per_page < 1` and
`p = min(per_page, 100)` otherwise; the function is total (it never raises),
and the result always satisfies `page >= 1` and `1 <= per_page <= 100`. -/
theorem validate_pagination_params_spec (page per_page : Int) :
    validate_pagination_params page per_page 100 =
      (max page 1, if per_page < 1 then 10 else min per_page 100) ∧
    1 ≤ (validate_pagination_params page per_page 100).1 ∧
    1 ≤ (validate_pagination_params page per_page 100).2 ∧
    (validate_pagination_params page per_page 100).2 ≤ 100 := by
  unfold validate_pagination_params
  dsimp only
  by_cases h : per_page < 1
  · simp only [h, if_true, Prod.mk.injEq]
    refine ⟨⟨trivial, ?_⟩, ?_, ?_, ?_⟩ <;> omega
  · simp only [h, if_false, Prod.mk.injEq]
    refine ⟨trivial, ?_, ?_, ?_⟩ <;> omega

/-!  ## Claim C2: the slicing helper  -/

/-- Helper: for normalized parameters the slice computed by
`paginate_response` is the drop/take window. -/
theorem paginate_response_items_window (xs : List α) (page per_page : Int)
    (hp : 1 ≤ page) (hpp : 1 ≤ per_page) :
    (paginate_response xs page per_page).items =
      if (page - 1) * per_page < (xs.length : Int) then
        (xs.drop ((page - 1) * per_page).toNat).take per_page.toNat
      else [] := by
  have hs : 0 ≤ (page - 1) * per_page := mul_nonneg (by omega) (by omega)
  by_cases hlt : (page - 1) * per_page < (xs.length : Int)
  · simp only [paginate_response, pySlice, sliceBound, hlt, if_true]
    have h1 : ¬ ((page - 1) * per_page + per_page < 0) := by omega
    have h2 : ¬ ((page - 1) * per_page < 0) := by omega
    simp only [h1, h2, if_false]
    have hS : min ((page - 1) * per_page).toNat xs.length =
        ((page - 1) * per_page).toNat := by omega
    rw [hS, List.drop_take, List.take_eq_take]
    simp only [List.length_drop]
    omega
  · simp only [paginate_response, hlt, if_false]

/-- C2.  `paginate_response` on a normalized `(page, per_page)` reports
`total = len(items)` regardless of page, echoes `page` and `per_page`, and
returns the window of the input from index `(page-1)*per_page` of length
`per_page` — empty as soon as the start index is at or beyond the length. -/
theorem paginate_response_spec (xs : List α) (page per_page : Int)
    (hp : 1 ≤ page) (hpp : 1 ≤ per_page) :
    (paginate_response xs page per_page).total = xs.length ∧
    (paginate_response xs page per_page).page = page ∧
    (paginate_response xs page per_page).per_page = per_page ∧
    (paginate_response xs page per_page).items =
      (if (page - 1) * per_page < (xs.length : Int) then
        (xs.drop ((page - 1) * per_page).toNat).take per_page.toNat
      else []) := by
  refine ⟨rfl, rfl, rfl, ?_⟩
  exact paginate_response_items_window xs page per_page hp hpp

/-- Witness for C2 at the spec's concrete example: 25 items, pages 3 and 4
with `per_page = 10`. -/
theorem paginate_response_spec_witness :
    ((1 : Int) ≤ 3 ∧ (1 : Int) ≤ 10 ∧
      (paginate_response (List.range 25) 3 10).items =
        (if ((3 : Int) - 1) * 10 < (((List.range 25).length : Nat) : Int) then
          ((List.range 25).drop (((3 : Int) - 1) * 10).toNat).take
            (10 : Int).toNat
        else [])) ∧
    (paginate_response (List.range 25) 3 10).items = [20, 21, 22, 23, 24] ∧
    (paginate_response (List.range 25) 3 10).total = 25 ∧
    (paginate_response (List.range 25) 4 10).items = [] ∧
    (paginate_response (List.range 25) 4 10).total = 25 := by
  refine ⟨⟨by decide, by decide, ?_⟩, by decide, by decide, by decide, by decide⟩
  exact (paginate_response_spec (List.range 25) 3 10 (by decide) (by decide)).2.2.2

/-!  ## Claim C10: consecutive pages of `paginate_response` partition the
input  -/

/-- Helper: concatenating the drop/take windows of width `k` for indices
`0, …, N-1` yields the first `N*k` elements. -/
theorem windows_flatMap_take (xs : List α) (k : Nat) :
    ∀ N : Nat,
      (List.range N).flatMap (fun i => (xs.drop (i * k)).take k) =
        xs.take (N * k)
  | 0 => by simp
  | N + 1 => by
    rw [List.range_succ, List.flatMap_append, windows_flatMap_take xs k N,
      Nat.succ_mul]
    simp only [List.flatMap_cons, List.flatMap_nil, List.append_nil]
    rw [← List.take_add]

/-- Helper: on page `i+1` (zero-based `i`) the slicing helper returns the
`i`-th window of width `per_page`, with no case split needed. -/
theorem paginate_window_nat (xs : List α) (i : Nat) (per_page : Int)
    (hpp : 1 ≤ per_page) :
    (paginate_response xs ((i : Int) + 1) per_page).items =
      (xs.drop (i * per_page.toNat)).take per_page.toNat := by
  obtain ⟨n, rfl⟩ : ∃ n : Nat, per_page = (n : Int) :=
    ⟨per_page.toNat, (Int.toNat_of_nonneg (by omega)).symm⟩
  rw [paginate_response_items_window xs _ _ (by omega) hpp]
  have e1 : ((i : Int) + 1 - 1) * (n : Int) = ((i * n : Nat) : Int) := by
    push_cast
    ring
  rw [e1, Int.toNat_ofNat, Int.toNat_ofNat]
  by_cases hlt : i * n < xs.length
  · rw [if_pos (by exact_mod_cast hlt)]
  · rw [if_neg (by exact_mod_cast hlt)]
    rw [List.drop_eq_nil_of_le (by omega), List.take_nil]

/-- C10.  For `per_page >= 1`: (1) concatenating the `items` of
`paginate_response` over consecutive pages `1, …, N` reproduces the input
exactly — nothing duplicated or dropped — as soon as `N` pages cover the
list; (2) a page is empty exactly when its start index `(page-1)*per_page`
is at or beyond the length, so every page beyond the last non-empty one is
empty. -/
theorem paginate_response_pages_partition (xs : List α) (per_page : Int)
    (hpp : 1 ≤ per_page) :
    (∀ N : Nat, (xs.length : Int) ≤ (N : Int) * per_page →
      (List.range N).flatMap
        (fun i => (paginate_response xs ((i : Int) + 1) per_page).items) =
        xs) ∧
    (∀ page : Int, 1 ≤ page →
      ((paginate_response xs page per_page).items = [] ↔
        (xs.length : Int) ≤ (page - 1) * per_page)) := by
  obtain ⟨n, rfl⟩ : ∃ n : Nat, per_page = (n : Int) :=
    ⟨per_page.toNat, (Int.toNat_of_nonneg (by omega)).symm⟩
  have hn1 : 1 ≤ n := by exact_mod_cast hpp
  constructor
  · intro N hN
    have hfun : (fun i : Nat => (paginate_response xs ((i : Int) + 1) (n : Int)).items)
        = fun i : Nat => (xs.drop (i * n)).take n :=
      funext fun i => paginate_window_nat xs i (n : Int) hpp
    rw [hfun, windows_flatMap_take]
    exact List.take_of_length_le (by exact_mod_cast hN)
  · intro page hpage
    rw [paginate_response_items_window xs page _ hpage hpp]
    have hs0 : 0 ≤ (page - 1) * (n : Int) := mul_nonneg (by omega) (by omega)
    rw [Int.toNat_ofNat]
    generalize hsv : (page - 1) * (n : Int) = s at hs0 ⊢
    by_cases hlt : s < (xs.length : Int)
    · rw [if_pos hlt, List.take_eq_nil_iff, List.drop_eq_nil_iff]
      omega
    · rw [if_neg hlt]
      simp only [eq_self_iff_true, true_iff]
      omega

/-- Witness for C10: a 25-element list, `per_page = 10`, covered by `N = 3`
pages; page 4 is empty. -/
theorem paginate_response_pages_partition_witness :
    ((1 : Int) ≤ 10 ∧
      ((List.range 25).length : Int) ≤ ((3 : Nat) : Int) * 10 ∧
      (List.range 3).flatMap
        (fun i => (paginate_response (List.range 25) ((i : Int) + 1) 10).items) =
        List.range 25) ∧
    ((1 : Int) ≤ 4 ∧
      ((paginate_response (List.range 25) 4 10).items = [] ↔
        ((List.range 25).length : Int) ≤ ((4 : Int) - 1) * 10)) := by
  refine ⟨⟨by decide, by decide, ?_⟩, by decide, ?_⟩
  · exact (paginate_response_pages_partition (List.range 25) 10 (by decide)).1 3
      (by decide)
  · exact (paginate_response_pages_partition (List.range 25) 10 (by decide)).2 4
      (by decide)

/-!  ## Claim C3: over-fetch by one, truncate, synthesize the total  -/

/-- C3.  `get_coins_list` issues exactly one `coins/markets` request whose
`per_page` parameter is `per_page + 1`; the returned sequence is truncated
locally to at most `per_page` items (exactly `min` of the payload length and
`per_page` when every payload entry is a dict); and the `/api/v1/coins`
endpoint synthesizes `total = page*per_page + per_page` for a non-empty
result page and `page*per_page` for an empty one. -/
theorem get_coins_list_spec (cfg : Config) (page per_page : Int)
    (hpp : 1 ≤ per_page) (oracle : Request → Upstream) :
    (get_coins_list cfg page per_page oracle).2 =
      [coins_list_request cfg page per_page] ∧
    List.lookup "per_page" (coins_list_request cfg page per_page).params =
      some (.num ((per_page + 1 : Int) : Rat)) ∧
    (∀ items, oracle (coins_list_request cfg page per_page) =
        .ok (.arr items) →
      (∀ c ∈ items, c.isObj = true) →
      ∃ cs, (get_coins_list cfg page per_page oracle).1 = .ok cs ∧
        cs.length = min items.length per_page.toNat) ∧
    (∀ env, list_coins cfg page per_page oracle = .ok env →
      env.total = if env.items.isEmpty then env.page * env.per_page
        else env.page * env.per_page + env.per_page) := by
  refine ⟨?_, ?_, ?_, ?_⟩
  · unfold get_coins_list
    dsimp only
    split
    · rfl
    · split
      · rfl
      · split <;> rfl
  · rfl
  · intro items hup hobjs
    unfold get_coins_list
    dsimp only
    rw [hup]
    simp only [make_request]
    by_cases hf : (JValue.arr items).falsy
    · have hnil : items = [] := by
        simpa [JValue.falsy, List.isEmpty_iff] using hf
      subst hnil
      simp only [hf, if_true]
      exact ⟨[], rfl, by simp⟩
    · simp only [hf, if_false]
      have hslice : pySliceVal (.arr items) per_page =
          .ok (items.take per_page.toNat) := by
        simp only [pySliceVal]
        rw [pySliceTo_eq_take items per_page (by omega)]
      obtain ⟨cs, hcs, hlen⟩ := reshapeAll_ok_of_obj (items.take per_page.toNat)
        fun c hc => hobjs c (List.take_subset _ _ hc)
      rw [hslice, exceptBind_ok, hcs]
      refine ⟨cs, rfl, ?_⟩
      rw [hlen, List.length_take]
      omega
  · intro env henv
    unfold list_coins at henv
    dsimp only at henv
    split at henv
    · exact absurd henv (by simp)
    · rename_i coins heq
      injection henv with henv
      subst henv
      by_cases hc : coins.isEmpty <;> simp [hc]

/-- Witness for C3: an 11-item dict payload at `per_page = 10` comes back as
exactly 10 items. -/
theorem get_coins_list_spec_witness :
    ((1 : Int) ≤ 10 ∧
      (fun _ : Request => Upstream.ok (.arr (List.replicate 11 (.obj []))))
          (coins_list_request cfgEx 1 10) =
        .ok (.arr (List.replicate 11 (.obj []))) ∧
      (∀ c ∈ List.replicate 11 (JValue.obj []), c.isObj = true)) ∧
    ∃ cs, (get_coins_list cfgEx 1 10
        (fun _ => Upstream.ok (.arr (List.replicate 11 (.obj []))))).1 =
          .ok cs ∧
      cs.length = min (List.replicate 11 (JValue.obj [])).length
        (10 : Int).toNat := by
  refine ⟨⟨by decide, rfl, ?_⟩, ?_⟩
  · intro c hc
    rw [List.eq_of_mem_replicate hc]
    rfl
  · exact (get_coins_list_spec cfgEx 1 10 (by decide)
        (fun _ => Upstream.ok (.arr (List.replicate 11 (.obj []))))).2.2.1
      (List.replicate 11 (.obj [])) rfl
      fun c hc => by rw [List.eq_of_mem_replicate hc]; rfl

/-!  ## Claim C4: `items` length never exceeds `per_page`

The claim as stated is false for `get_coins_by_category`: the method passes
`per_page` to the provider and reshapes every entry of the reply without
truncating, so an overfull upstream payload is returned in full.  -/

/-- Counterexample to C4 as stated: with `per_page = 1` and a 2-entry
`coins/markets` payload, `get_coins_by_category` returns 2 coins. -/
theorem get_coins_by_category_exceeds_per_page :
    (get_coins_by_category cfgEx "defi" 1 1 oracleTwoCoins).1 =
      .ok ⟨.str "DeFi", [nullCoin, nullCoin]⟩ ∧
    ¬ ((([nullCoin, nullCoin] : List Coin).length : Int) ≤ 1) :=
  ⟨rfl, by decide⟩

/-- C4 (amended).  For a normalized `(page, per_page)`: the slicing helper
and `get_coins_list` never return more than `per_page` items, for every
upstream payload; `get_coins_by_category` does not truncate, so its bound
holds exactly when the upstream `coins/markets` payload itself holds at
most `per_page` entries. -/
theorem items_length_le_per_page {α : Type} (xs : List α) (cfg : Config)
    (page per_page : Int) (hp : 1 ≤ page) (hpp : 1 ≤ per_page) :
    ((paginate_response xs page per_page).items.length : Int) ≤ per_page ∧
    (∀ (oracle : Request → Upstream) (cs : List Coin),
      (get_coins_list cfg page per_page oracle).1 = .ok cs →
      (cs.length : Int) ≤ per_page) ∧
    (∀ (category_id : String) (oracle : Request → Upstream)
        (res : CategoryCoins),
      (∀ coins,
        oracle (category_markets_request cfg category_id page per_page) =
          .ok (.arr coins) → (coins.length : Int) ≤ per_page) →
      (get_coins_by_category cfg category_id page per_page oracle).1 =
        .ok res →
      (res.coins.length : Int) ≤ per_page) := by
  refine ⟨?_, ?_, ?_⟩
  · rw [paginate_response_items_window xs page per_page hp hpp]
    split
    · rw [List.length_take]
      omega
    · simp only [List.length_nil, Nat.cast_zero]
      omega
  · intro oracle cs h
    unfold get_coins_list at h
    dsimp only at h
    cases hmr : make_request (oracle (coins_list_request cfg page per_page)) with
    | error e =>
      rw [hmr] at h
      exact absurd h (by simp)
    | ok data =>
      rw [hmr] at h
      dsimp only at h
      by_cases hf : data.falsy
      · rw [if_pos hf] at h
        dsimp only at h
        injection h with h
        rw [← h]
        simp only [List.length_nil, Nat.cast_zero]
        omega
      · rw [if_neg hf] at h
        cases h3 : pySliceVal data per_page >>= reshapeAll with
        | error e2 =>
          rw [h3] at h
          exact absurd h (by simp)
        | ok cs' =>
          rw [h3] at h
          dsimp only at h
          injection h with h
          rw [← h]
          cases data with
          | arr xs' =>
            rw [show pySliceVal (.arr xs') per_page =
                .ok (pySliceTo xs' per_page) from rfl, exceptBind_ok] at h3
            rw [pySliceTo_eq_take _ _ (by omega)] at h3
            have hlen := reshapeAll_length h3
            rw [List.length_take] at hlen
            omega
          | str s =>
            rw [show pySliceVal (.str s) per_page =
                .ok (pySliceTo (s.toList.map fun c =>
                  JValue.str (String.singleton c)) per_page) from rfl,
              exceptBind_ok] at h3
            rw [pySliceTo_eq_take _ _ (by omega)] at h3
            have hnil := reshapeAll_ok_of_no_obj (fun y hy => by
              obtain ⟨c, _, rfl⟩ := List.mem_map.mp (List.mem_of_mem_take hy)
              rfl) h3
            rw [hnil]
            simp only [List.length_nil, Nat.cast_zero]
            omega
          | null => exact absurd h3 (by simp [pySliceVal, exceptBind_error])
          | bool b => exact absurd h3 (by simp [pySliceVal, exceptBind_error])
          | num q => exact absurd h3 (by simp [pySliceVal, exceptBind_error])
          | obj fs => exact absurd h3 (by simp [pySliceVal, exceptBind_error])
  · intro cid oracle res hbound hres
    unfold get_coins_by_category at hres
    dsimp only at hres
    cases h1 : make_request (oracle (category_meta_request cid)) with
    | error e =>
      rw [h1] at hres
      exact absurd hres (by simp)
    | ok category_data =>
      rw [h1] at hres
      dsimp only at hres
      by_cases hf : category_data.falsy
      · rw [if_pos hf] at hres
        dsimp only at hres
        injection hres with hres
        rw [← hres]
        simp only [List.length_nil, Nat.cast_zero]
        omega
      · rw [if_neg hf] at hres
        cases h2 : make_request
            (oracle (category_markets_request cfg cid page per_page)) with
        | error e =>
          rw [h2] at hres
          exact absurd hres (by simp)
        | ok coins_data =>
          rw [h2] at hres
          dsimp only at hres
          cases h3 : pyIter coins_data >>= reshapeAll with
          | error e2 =>
            rw [h3] at hres
            exact absurd hres (by simp)
          | ok cs =>
            rw [h3] at hres
            dsimp only at hres
            cases h4 : category_data.getD "name" (.str cid) with
            | error e3 =>
              rw [h4] at hres
              exact absurd hres (by simp)
            | ok nm =>
              rw [h4] at hres
              dsimp only at hres
              injection hres with hres
              rw [← hres]
              dsimp only
              have hup2 := make_request_ok h2
              cases coins_data with
              | arr coins =>
                rw [show pyIter (.arr coins) = .ok coins from rfl,
                  exceptBind_ok] at h3
                have hlen := reshapeAll_length h3
                have hb := hbound coins hup2
                omega
              | str s =>
                rw [show pyIter (.str s) = .ok (s.toList.map fun c =>
                    JValue.str (String.singleton c)) from rfl,
                  exceptBind_ok] at h3
                have hnil := reshapeAll_ok_of_no_obj (fun y hy => by
                  obtain ⟨c, _, rfl⟩ := List.mem_map.mp hy
                  rfl) h3
                rw [hnil]
                simp only [List.length_nil, Nat.cast_zero]
                omega
              | obj fs =>
                rw [show pyIter (.obj fs) = .ok (fs.map fun p =>
                    JValue.str p.1) from rfl, exceptBind_ok] at h3
                have hnil := reshapeAll_ok_of_no_obj (fun y hy => by
                  obtain ⟨p, _, rfl⟩ := List.mem_map.mp hy
                  rfl) h3
                rw [hnil]
                simp only [List.length_nil, Nat.cast_zero]
                omega
              | null => exact absurd h3 (by simp [pyIter, exceptBind_error])
              | bool b => exact absurd h3 (by simp [pyIter, exceptBind_error])
              | num q => exact absurd h3 (by simp [pyIter, exceptBind_error])

/-- Witness for the amended C4: `page = 1`, `per_page = 2`, concrete
payloads for all three operations. -/
theorem items_length_le_per_page_witness :
    ((1 : Int) ≤ 1 ∧ (1 : Int) ≤ 2) ∧
    ((paginate_response (List.range 5) 1 2).items.length : Int) ≤ 2 ∧
    ((([nullCoin] : List Coin).length : Int) ≤ 2) ∧
    ((([nullCoin, nullCoin] : List Coin).length : Int) ≤ 2) := by
  refine ⟨⟨by decide, by decide⟩, ?_, ?_, ?_⟩
  · exact (items_length_le_per_page (List.range 5) cfgEx 1 2 (by decide)
      (by decide)).1
  · exact (items_length_le_per_page (List.range 5) cfgEx 1 2 (by decide)
        (by decide)).2.1
      (fun _ => .ok (.arr [.obj []])) [nullCoin] rfl
  · refine (items_length_le_per_page (List.range 5) cfgEx 1 2 (by decide)
        (by decide)).2.2
      "defi" oracleTwoCoins ⟨.str "DeFi", [nullCoin, nullCoin]⟩ ?_ rfl
    intro coins h
    rw [show oracleTwoCoins (category_markets_request cfgEx "defi" 1 2) =
      Upstream.ok (.arr [.obj [], .obj []]) from rfl] at h
    injection h with h
    injection h with h
    rw [← h]
    decide

/-!  ## Claim C5: error mapping of the gateway  -/

/-- C5.  `_make_request` maps an upstream 429 to a local 429 error whose
message contains the phrase "rate limit" (the literal message capitalizes
it: "Rate limit exceeded. Please try again later."), any other upstream
HTTP status to a local error with that same status, and a transport
failure to a 503 error; and every gateway operation re-raises a
`_make_request` error unchanged, so the mapping applies to all of them. -/
theorem make_request_error_mapping (status : Nat) (msg : String)
    (cfg : Config) (page per_page : Int) (cid coin_id : String)
    (oracle : Request → Upstream) :
    (make_request (.httpError 429) =
        .error ⟨429, "Rate limit exceeded. Please try again later."⟩ ∧
      containsSubstringCI "Rate limit exceeded. Please try again later."
        "rate limit" = true) ∧
    (∀ e, make_request (.httpError status) = .error e →
      e.status_code = status) ∧
    (∀ e, make_request (.netError msg) = .error e → e.status_code = 503) ∧
    (∀ e, make_request (oracle (coins_list_request cfg page per_page)) =
        .error e →
      (get_coins_list cfg page per_page oracle).1 = .error e) ∧
    (∀ e up, make_request up = .error e → get_coin_categories up = .error e) ∧
    (∀ e up, make_request up = .error e →
      get_coin_by_id cfg coin_id up = .error e) ∧
    (∀ e, make_request (oracle (category_meta_request cid)) = .error e →
      (get_coins_by_category cfg cid page per_page oracle).1 = .error e) ∧
    (∀ e category_data,
      make_request (oracle (category_meta_request cid)) = .ok category_data →
      category_data.falsy = false →
      make_request (oracle (category_markets_request cfg cid page per_page)) =
        .error e →
      (get_coins_by_category cfg cid page per_page oracle).1 = .error e) := by
  refine ⟨⟨rfl, by decide⟩, ?_, ?_, ?_, ?_, ?_, ?_, ?_⟩
  · intro e h
    simp only [make_request] at h
    split at h
    · rename_i h429
      simp only [beq_iff_eq] at h429
      injection h with h
      rw [← h]
      exact h429.symm
    · injection h with h
      rw [← h]
  · intro e h
    simp only [make_request] at h
    injection h with h
    rw [← h]
  · intro e h
    unfold get_coins_list
    dsimp only
    rw [h]
  · intro e up h
    unfold get_coin_categories
    rw [h]
  · intro e up h
    unfold get_coin_by_id
    rw [h]
  · intro e h
    unfold get_coins_by_category
    dsimp only
    rw [h]
  · intro e category_data hcat hfalse h2
    unfold get_coins_by_category
    dsimp only
    rw [hcat]
    dsimp only
    rw [if_neg (by simp [hfalse]), h2]

/-- Witness for C5: every error shape exercised at a concrete input. -/
theorem make_request_error_mapping_witness :
    (HTTPException.mk 500 (strOfHTTPError 500)).status_code = 500 ∧
    (HTTPException.mk 503
      ("Error fetching data from CoinGecko: " ++ "boom")).status_code = 503 ∧
    (get_coins_list cfgEx 1 10 oracle429).1 =
      .error ⟨429, "Rate limit exceeded. Please try again later."⟩ ∧
    get_coin_categories (.netError "boom") =
      .error ⟨503, "Error fetching data from CoinGecko: " ++ "boom"⟩ ∧
    get_coin_by_id cfgEx "bitcoin" (.httpError 500) =
      .error ⟨500, strOfHTTPError 500⟩ ∧
    (get_coins_by_category cfgEx "defi" 1 10 oracle429).1 =
      .error ⟨429, "Rate limit exceeded. Please try again later."⟩ ∧
    (get_coins_by_category cfgEx "defi" 1 10 oracleMarketsDown).1 =
      .error ⟨503, "Error fetching data from CoinGecko: " ++ "down"⟩ := by
  have base := make_request_error_mapping 500 "boom" cfgEx 1 10 "defi"
    "bitcoin" oracle429
  have base2 := make_request_error_mapping 500 "boom" cfgEx 1 10 "defi"
    "bitcoin" oracleMarketsDown
  refine ⟨?_, ?_, ?_, ?_, ?_, ?_, ?_⟩
  · exact base.2.1 ⟨500, strOfHTTPError 500⟩ rfl
  · exact base.2.2.1 ⟨503, "Error fetching data from CoinGecko: " ++ "boom"⟩ rfl
  · exact base.2.2.2.1 ⟨429, "Rate limit exceeded. Please try again later."⟩ rfl
  · exact base.2.2.2.2.1 ⟨503, "Error fetching data from CoinGecko: " ++ "boom"⟩
      (.netError "boom") rfl
  · exact base.2.2.2.2.2.1 ⟨500, strOfHTTPError 500⟩ (.httpError 500) rfl
  · exact base.2.2.2.2.2.2.1
      ⟨429, "Rate limit exceeded. Please try again later."⟩ rfl
  · exact base2.2.2.2.2.2.2.2
      ⟨503, "Error fetching data from CoinGecko: " ++ "down"⟩
      (.obj [("name", .str "DeFi")]) rfl rfl rfl

/-!  ## Claim C6: error collapsing inside `get_coin_by_id`

The claim as stated is false: `get_coin_by_id` re-raises an
`HTTPException` coming out of `_make_request` unchanged
(`except HTTPException as e: raise e`), so an upstream HTTP error keeps its
own status and a transport failure surfaces as 503; only a non-HTTP
failure during reshaping is collapsed to 404.  -/

/-- Counterexample to C6 as stated: an upstream 429 inside `get_coin_by_id`
surfaces as 429, not 404. -/
theorem get_coin_by_id_not_always_404 :
    get_coin_by_id cfgEx "bitcoin" (.httpError 429) =
      .error ⟨429, "Rate limit exceeded. Please try again later."⟩ ∧
    (429 : Nat) ≠ 404 :=
  ⟨rfl, by decide⟩

/-- C6 (amended).  Inside `get_coin_by_id`, an error produced by
`_make_request` (upstream HTTP error of any status, or a transport
failure) propagates unchanged; only a failure of the reshaping step is
collapsed to `404 "Coin not found: {coin_id}"`. -/
theorem get_coin_by_id_error_behavior (cfg : Config) (coin_id : String)
    (up : Upstream) :
    (∀ e, make_request up = .error e →
      get_coin_by_id cfg coin_id up = .error e) ∧
    (∀ data, up = .ok data → reshapeCoinDetail cfg data = .error () →
      get_coin_by_id cfg coin_id up =
        .error ⟨404, "Coin not found: " ++ coin_id⟩) := by
  constructor
  · intro e h
    unfold get_coin_by_id
    rw [h]
  · intro data hup hre
    subst hup
    unfold get_coin_by_id
    simp only [make_request]
    rw [hre]

/-- Witness for the amended C6: a transport failure keeps status 503, and a
non-dict body (reshaping failure) gives the 404 "Coin not found". -/
theorem get_coin_by_id_error_behavior_witness :
    get_coin_by_id cfgEx "doge" (.netError "down") =
      .error ⟨503, "Error fetching data from CoinGecko: " ++ "down"⟩ ∧
    get_coin_by_id cfgEx "doge" (.ok (.num 3)) =
      .error ⟨404, "Coin not found: " ++ "doge"⟩ := by
  constructor
  · exact (get_coin_by_id_error_behavior cfgEx "doge" (.netError "down")).1
      ⟨503, "Error fetching data from CoinGecko: " ++ "down"⟩ rfl
  · exact (get_coin_by_id_error_behavior cfgEx "doge" (.ok (.num 3))).2
      (.num 3) rfl rfl

/-!  ## Claim C7: absent category degrades gracefully  -/

/-- C7.  When the provider reports the category as absent (a falsy payload:
`None`, `{}`, `[]`, …), `get_coins_by_category` returns
`{category: category_id, coins: []}` without error, and the `coins/markets`
request is never issued. -/
theorem get_coins_by_category_absent (cfg : Config) (category_id : String)
    (page per_page : Int) (oracle : Request → Upstream) (body : JValue)
    (hup : oracle (category_meta_request category_id) = .ok body)
    (hfalsy : body.falsy = true) :
    (get_coins_by_category cfg category_id page per_page oracle).1 =
      .ok ⟨.str category_id, []⟩ ∧
    (get_coins_by_category cfg category_id page per_page oracle).2 =
      [category_meta_request category_id] ∧
    category_markets_request cfg category_id page per_page ∉
      (get_coins_by_category cfg category_id page per_page oracle).2 := by
  have hmain : get_coins_by_category cfg category_id page per_page oracle =
      (.ok ⟨.str category_id, []⟩, [category_meta_request category_id]) := by
    unfold get_coins_by_category
    dsimp only
    rw [hup]
    simp only [make_request]
    rw [if_pos hfalsy]
  refine ⟨by rw [hmain], by rw [hmain], ?_⟩
  rw [hmain]
  intro hmem
  rw [List.mem_singleton] at hmem
  have hend := congrArg Request.endpoint hmem
  have hl := congrArg String.length hend
  simp only [category_markets_request, category_meta_request] at hl
  rw [String.length_append] at hl
  have h17 : ("coins/categories/").length = 17 := rfl
  have h13 : ("coins/markets").length = 13 := rfl
  omega

/-- Witness for C7 at a concrete provider that answers `None` for the
category metadata. -/
theorem get_coins_by_category_absent_witness :
    ((fun _ : Request => Upstream.ok .null)
        (category_meta_request "nope") = .ok .null ∧
      JValue.falsy .null = true) ∧
    (get_coins_by_category cfgEx "nope" 1 10
        (fun _ => Upstream.ok .null)).1 = .ok ⟨.str "nope", []⟩ ∧
    (get_coins_by_category cfgEx "nope" 1 10
        (fun _ => Upstream.ok .null)).2 = [category_meta_request "nope"] := by
  refine ⟨⟨rfl, rfl⟩, ?_, ?_⟩
  · exact (get_coins_by_category_absent cfgEx "nope" 1 10
      (fun _ => Upstream.ok .null) .null rfl rfl).1
  · exact (get_coins_by_category_absent cfgEx "nope" 1 10
      (fun _ => Upstream.ok .null) .null rfl rfl).2.1

/-!  ## Claim C8: category listing degrades gracefully

The claim as stated is refuted by the validation layer: a dict entry whose
`category_id`/`name` value is not a string (e.g. `{"name": null}`) is not a
well-formed record, yet it is not skipped: the pydantic constructor raises
and the call fails with a 500.  Non-dict entries, in contrast, really are
inert.  -/

/-- Helper: the loop treats non-dict entries as if they were absent. -/
theorem categoriesLoop_filter_isObj (l : List JValue) :
    ∀ acc, categoriesLoop acc l =
      categoriesLoop acc (l.filter fun e => e.isObj) := by
  induction l with
  | nil => intro acc; rfl
  | cons c rest ih =>
    intro acc
    by_cases hc : c.isObj
    · have hfil : (c :: rest).filter (fun e => e.isObj) =
          c :: rest.filter (fun e => e.isObj) := by
        simp [List.filter_cons, hc]
      rw [hfil]
      simp only [categoriesLoop]
      rw [if_pos hc, if_pos hc]
      cases hfc : Category.from_coingecko c with
      | ok cat =>
        simp only [hfc]
        exact ih (acc ++ [cat])
      | error e => simp only [hfc]
    · have hfil : (c :: rest).filter (fun e => e.isObj) =
          rest.filter (fun e => e.isObj) := by
        simp [List.filter_cons, hc]
      rw [hfil]
      simp only [categoriesLoop]
      rw [if_neg hc]
      exact ih acc

/-- Helper: when every dict entry validates, the loop succeeds with the
in-order image of exactly the dict entries. -/
theorem categoriesLoop_ok_of_valid : ∀ (l : List JValue) (acc : List Category),
    (∀ e ∈ l, e.isObj = true →
      (Category.from_coingecko e).toOption.isSome = true) →
    categoriesLoop acc l = .ok (acc ++ l.filterMap fun e =>
      if e.isObj then (Category.from_coingecko e).toOption else none)
  | [], acc, _ => by simp [categoriesLoop]
  | c :: rest, acc, h => by
    simp only [categoriesLoop, List.filterMap_cons]
    by_cases hc : c.isObj
    · rw [if_pos hc]
      have hok := h c (List.mem_cons_self c rest) hc
      cases hfc : Category.from_coingecko c with
      | error e =>
        rw [hfc] at hok
        exact absurd hok (by simp [Except.toOption])
      | ok cat =>
        simp only [hfc]
        rw [categoriesLoop_ok_of_valid rest (acc ++ [cat])
          fun e he hobj => h e (List.mem_cons_of_mem _ he) hobj]
        simp [hc, hfc, Except.toOption]
    · rw [if_neg hc]
      rw [categoriesLoop_ok_of_valid rest acc
        fun e he hobj => h e (List.mem_cons_of_mem _ he) hobj]
      simp [hc]

/-- Helper: one dict entry failing validation makes the whole loop
raise. -/
theorem categoriesLoop_error_of_invalid : ∀ (l : List JValue)
    (acc : List Category),
    (∃ e ∈ l, e.isObj = true ∧ Category.from_coingecko e = .error ()) →
    categoriesLoop acc l = .error ()
  | [], _, h => absurd h (by simp)
  | c :: rest, acc, h => by
    simp only [categoriesLoop]
    obtain ⟨x, hx, hxo, hxe⟩ := h
    by_cases hc : c.isObj
    · rw [if_pos hc]
      cases hfc : Category.from_coingecko c with
      | error e => rfl
      | ok cat =>
        simp only [hfc]
        rcases List.mem_cons.mp hx with rfl | hx2
        · rw [hfc] at hxe
          exact absurd hxe (by simp)
        · exact categoriesLoop_error_of_invalid rest (acc ++ [cat])
            ⟨x, hx2, hxo, hxe⟩
    · rw [if_neg hc]
      rcases List.mem_cons.mp hx with rfl | hx2
      · exact absurd hxo (by simp [hc])
      · exact categoriesLoop_error_of_invalid rest acc ⟨x, hx2, hxo, hxe⟩

/-- Counterexample to C8 as stated: the entry `{"name": null}` is not a
well-formed record, yet instead of being silently skipped it makes
`get_coin_categories` fail with a 500 (skipping it would have produced the
empty list). -/
theorem get_coin_categories_raises_on_invalid_record :
    get_coin_categories (.ok (.arr [.obj [("name", .null)]])) =
      .error ⟨500, "Internal server error: validation failed"⟩ ∧
    get_coin_categories (.ok (.arr [])) = .ok [] :=
  ⟨rfl, rfl⟩

/-- C8 (amended).  A non-list payload yields the empty category list with
no error; within a list payload every entry that is not a dict is silently
skipped and never causes a failure (the call behaves exactly as if those
entries were absent), and when every dict entry passes the `str` field
validation the result is their in-order image; but a dict entry whose
`category_id` or `name` value fails the string validation aborts the whole
call with a 500 "Internal server error" instead of being skipped. -/
theorem get_coin_categories_behavior (payload : JValue)
    (entries : List JValue) :
    (payload.isArr = false → get_coin_categories (.ok payload) = .ok []) ∧
    get_coin_categories (.ok (.arr entries)) =
      get_coin_categories (.ok (.arr (entries.filter fun e => e.isObj))) ∧
    ((∀ e ∈ entries, e.isObj = true →
        (Category.from_coingecko e).toOption.isSome = true) →
      get_coin_categories (.ok (.arr entries)) =
        .ok (entries.filterMap fun e =>
          if e.isObj then (Category.from_coingecko e).toOption else none)) ∧
    ((∃ e ∈ entries, e.isObj = true ∧
        Category.from_coingecko e = .error ()) →
      get_coin_categories (.ok (.arr entries)) =
        .error ⟨500, "Internal server error: validation failed"⟩) := by
  refine ⟨?_, ?_, ?_, ?_⟩
  · intro hna
    cases payload <;> first
      | rfl
      | simp [JValue.isArr] at hna
  · unfold get_coin_categories
    simp only [make_request]
    rw [categoriesLoop_filter_isObj entries []]
  · intro hvalid
    unfold get_coin_categories
    simp only [make_request]
    rw [categoriesLoop_ok_of_valid entries [] hvalid]
    simp
  · intro hbad
    unfold get_coin_categories
    simp only [make_request]
    rw [categoriesLoop_error_of_invalid entries [] hbad]

/-- Witness for the amended C8: a non-list payload, a mixed list whose
non-dict entries are inert, and a list with an ill-typed dict entry. -/
theorem get_coin_categories_behavior_witness :
    (JValue.isArr (.str "oops") = false ∧
      get_coin_categories (.ok (.str "oops")) = .ok []) ∧
    get_coin_categories (.ok (.arr
        [.obj [("category_id", .str "defi"), ("name", .str "DeFi")],
         .num 3])) =
      get_coin_categories (.ok (.arr
        (([.obj [("category_id", .str "defi"), ("name", .str "DeFi")],
           .num 3] : List JValue).filter fun e => e.isObj))) ∧
    get_coin_categories (.ok (.arr
        [.obj [("category_id", .str "defi"), ("name", .str "DeFi")],
         .num 3])) =
      .ok (([.obj [("category_id", .str "defi"), ("name", .str "DeFi")],
         .num 3] : List JValue).filterMap fun e =>
          if e.isObj then (Category.from_coingecko e).toOption else none) ∧
    get_coin_categories (.ok (.arr [.num 3, .obj [("name", .null)]])) =
      .error ⟨500, "Internal server error: validation failed"⟩ := by
  refine ⟨⟨rfl, ?_⟩, ?_, ?_, ?_⟩
  · exact (get_coin_categories_behavior (.str "oops") []).1 rfl
  · exact (get_coin_categories_behavior (.str "oops")
      [.obj [("category_id", .str "defi"), ("name", .str "DeFi")],
       .num 3]).2.1
  · exact (get_coin_categories_behavior (.str "oops")
      [.obj [("category_id", .str "defi"), ("name", .str "DeFi")],
       .num 3]).2.2.1 (by decide)
  · exact (get_coin_categories_behavior (.str "oops")
      [.num 3, .obj [("name", .null)]]).2.2.2
      ⟨.obj [("name", .null)],
        List.mem_cons_of_mem _ (List.mem_cons_self _ _), rfl, rfl⟩

/-!  ## Claim C9: flattening of the coin-detail payload  -/

/-- C9.  Whenever `get_coin_by_id` returns a `CoinDetail`, its flattened
`current_price` (resp. `market_cap`) equals the provider payload's nested
`market_data.current_price.<currency>` (resp.
`market_data.market_cap.<currency>`) value for the configured default
currency, and each of the `links` keys `homepage`, `blockchain_site`,
`official_forum_url` defaults to the empty sequence when the corresponding
path is absent from the payload. -/
theorem get_coin_by_id_reshaping (cfg : Config) (coin_id : String)
    (data : JValue) (d : CoinDetail)
    (hok : get_coin_by_id cfg coin_id (.ok data) = .ok d) :
    (∀ md cp p, data.find "market_data" = some md →
      md.find "current_price" = some cp →
      cp.find cfg.default_currency = some p →
      d.current_price = p) ∧
    (∀ md mc m, data.find "market_data" = some md →
      md.find "market_cap" = some mc →
      mc.find cfg.default_currency = some m →
      d.market_cap = m) ∧
    ((∀ l, data.find "links" = some l → l.find "homepage" = none) →
      d.links_homepage = .arr []) ∧
    ((∀ l, data.find "links" = some l → l.find "blockchain_site" = none) →
      d.links_blockchain_site = .arr []) ∧
    ((∀ l, data.find "links" = some l → l.find "official_forum_url" = none) →
      d.links_official_forum_url = .arr []) := by
  have hre : reshapeCoinDetail cfg data = .ok d := by
    unfold get_coin_by_id at hok
    simp only [make_request] at hok
    cases hr : reshapeCoinDetail cfg data with
    | ok d' =>
      rw [hr] at hok
      dsimp only at hok
      injection hok with hok
      exact congrArg Except.ok hok
    | error e =>
      rw [hr] at hok
      exact absurd hok (by simp)
  simp only [reshapeCoinDetail, JValue.get1] at hre
  obtain ⟨id0, hv1, hre⟩ := exceptBind_eq_ok hre
  obtain ⟨sym0, hv2, hre⟩ := exceptBind_eq_ok hre
  obtain ⟨nm0, hv3, hre⟩ := exceptBind_eq_ok hre
  obtain ⟨md1, hmd1, hre⟩ := exceptBind_eq_ok hre
  obtain ⟨cp1, hcp1, hre⟩ := exceptBind_eq_ok hre
  obtain ⟨cpv, hcpv, hre⟩ := exceptBind_eq_ok hre
  obtain ⟨md2, hmd2, hre⟩ := exceptBind_eq_ok hre
  obtain ⟨mc1, hmc1, hre⟩ := exceptBind_eq_ok hre
  obtain ⟨mcv, hmcv, hre⟩ := exceptBind_eq_ok hre
  obtain ⟨rankv, hv10, hre⟩ := exceptBind_eq_ok hre
  obtain ⟨md3, hmd3, hre⟩ := exceptBind_eq_ok hre
  obtain ⟨pc24, hv12, hre⟩ := exceptBind_eq_ok hre
  obtain ⟨md4, hmd4, hre⟩ := exceptBind_eq_ok hre
  obtain ⟨pcp24, hv14, hre⟩ := exceptBind_eq_ok hre
  obtain ⟨desc, hv15, hre⟩ := exceptBind_eq_ok hre
  obtain ⟨cats, hv16, hre⟩ := exceptBind_eq_ok hre
  obtain ⟨l1, hl1, hre⟩ := exceptBind_eq_ok hre
  obtain ⟨lh, hlh, hre⟩ := exceptBind_eq_ok hre
  obtain ⟨l2, hl2, hre⟩ := exceptBind_eq_ok hre
  obtain ⟨lb, hlb, hre⟩ := exceptBind_eq_ok hre
  obtain ⟨l3, hl3, hre⟩ := exceptBind_eq_ok hre
  obtain ⟨lf, hlf, hre⟩ := exceptBind_eq_ok hre
  have hd : d = ⟨id0, sym0, nm0, cpv, mcv, rankv, pc24, pcp24, desc, cats,
      lh, lb, lf⟩ := by
    simp only [pure, Except.pure] at hre
    injection hre with hre
    exact hre.symm
  subst hd
  refine ⟨?_, ?_, ?_, ?_, ?_⟩
  · intro md' cp' p hmd' hcp' hp'
    have e1 := getD_ok_inv hmd1
    rw [hmd', Option.getD_some] at e1
    subst e1
    have e2 := getD_ok_inv hcp1
    rw [hcp', Option.getD_some] at e2
    subst e2
    have e3 := getD_ok_inv hcpv
    rw [hp', Option.getD_some] at e3
    exact e3
  · intro md' mc' m hmd' hmc' hm'
    have e1 := getD_ok_inv hmd2
    rw [hmd', Option.getD_some] at e1
    subst e1
    have e2 := getD_ok_inv hmc1
    rw [hmc', Option.getD_some] at e2
    subst e2
    have e3 := getD_ok_inv hmcv
    rw [hm', Option.getD_some] at e3
    exact e3
  · intro habs
    have e1 := getD_ok_inv hl1
    have e2 := getD_ok_inv hlh
    cases hfl : data.find "links" with
    | none =>
      rw [hfl, Option.getD_none] at e1
      subst e1
      simpa [JValue.find] using e2
    | some lv =>
      rw [hfl, Option.getD_some] at e1
      subst e1
      rw [habs _ hfl, Option.getD_none] at e2
      exact e2
  · intro habs
    have e1 := getD_ok_inv hl2
    have e2 := getD_ok_inv hlb
    cases hfl : data.find "links" with
    | none =>
      rw [hfl, Option.getD_none] at e1
      subst e1
      simpa [JValue.find] using e2
    | some lv =>
      rw [hfl, Option.getD_some] at e1
      subst e1
      rw [habs _ hfl, Option.getD_none] at e2
      exact e2
  · intro habs
    have e1 := getD_ok_inv hl3
    have e2 := getD_ok_inv hlf
    cases hfl : data.find "links" with
    | none =>
      rw [hfl, Option.getD_none] at e1
      subst e1
      simpa [JValue.find] using e2
    | some lv =>
      rw [hfl, Option.getD_some] at e1
      subst e1
      rw [habs _ hfl, Option.getD_none] at e2
      exact e2

/-- Witness for C9: the concrete bitcoin payload flattens to
`current_price = 50000`, `market_cap = 1000000000`, and all three links
default to the empty sequence. -/
theorem get_coin_by_id_reshaping_witness :
    get_coin_by_id cfgEx "bitcoin" (.ok coinPayloadEx) = .ok coinDetailEx ∧
    coinDetailEx.current_price = .num 50000 ∧
    coinDetailEx.market_cap = .num 1000000000 ∧
    coinDetailEx.links_homepage = .arr [] ∧
    coinDetailEx.links_blockchain_site = .arr [] ∧
    coinDetailEx.links_official_forum_url = .arr [] := by
  have base := get_coin_by_id_reshaping cfgEx "bitcoin" coinPayloadEx
    coinDetailEx rfl
  have hnone : coinPayloadEx.find "links" = none := rfl
  refine ⟨rfl, ?_, ?_, ?_, ?_, ?_⟩
  · exact base.1 _ _ _ rfl rfl rfl
  · exact base.2.1 _ _ _ rfl rfl rfl
  · exact base.2.2.1 fun l hl => Option.noConfusion (hnone ▸ hl)
  · exact base.2.2.2.1 fun l hl => Option.noConfusion (hnone ▸ hl)
  · exact base.2.2.2.2 fun l hl => Option.noConfusion (hnone ▸ hl)

end CryptoApi
